import Mathlib

/-!
Verification of the family-tree core (kinship resolver and generational
layout): a shallow embedding of `family_tree/family_tree.py` (classes
`Family`, `Person`, `Relationship`) and the parts of
`family_tree/database.py` it relies on.

Modelling conventions, used throughout:

* A `Person` instance is identified with its integer id (`Family.person`
  memoizes instances per id, so instance identity coincides with id equality
  within a session).  Lists of persons become lists of ids; the `None` that
  Python allows in those positions becomes `Option Nat`.
* The external record source (PostgreSQL, `database.py`) is modelled as an
  in-memory list of person records and relationship records carried by `Db`.
  Only the fields the verified algorithms read are kept (id, gender, father
  id, mother id, spurious flag for people; id, the two person ids, type and
  end type for relationships).  Dates are not modelled: the only thing they
  influence in the verified code paths is the ordering of children and
  partner lists, which is collapsed to the id ordering the database queries
  fall back to.
* Python exceptions become an explicit `Except FtError` with `notFound`
  standing for a failed person lookup, `spurious` for `SpuriousConnection`,
  `noneAttr` for an `AttributeError` caused by accessing an attribute on
  `None`, and `indexError` for `list.index` on a missing element.
  `outOfFuel` marks exhaustion of the explicit fuel that replaces Python's
  unbounded `while`/recursion; a run that yields `outOfFuel` for every fuel
  corresponds to a Python run that never terminates.
* Python dicts that are only ever extended (`edges`, `groups`) become
  association lists in insertion order; `defaultdict(list)` reads that merely
  create an empty entry are modelled as defaulting reads, since no verified
  property observes the set of empty keys.
-/

/-- `Gender` literal of the source: `'male' | 'female' | None`. -/
inductive Gender where
  | male
  | female
  | unknown
deriving DecidableEq, Repr

/-- A row of the `people` table, restricted to the fields the kinship and
layout algorithms read (`person_id`, `gender`, `father_id`, `mother_id`,
`spurious`). -/
structure PRec where
  pid : Nat
  gender : Gender := .unknown
  fatherId : Option Nat := none
  motherId : Option Nat := none
  spurious : Bool := false
deriving DecidableEq, Repr

/-- A row of the `relationships` table, restricted to the fields the verified
code reads (`relationship_id`, `person_a_id`, `person_b_id`,
`relationship_type`, `end_type`). -/
structure RelRec where
  rid : Nat
  aId : Nat
  bId : Nat
  rtype : String := "marriage"
  endType : Option String := none
deriving DecidableEq, Repr

/-- The record source plus session configuration: the `people` and
`relationships` tables and the `exclude_distant_history` flag that
`Database.__init__` turns into `exclude_spurious`. -/
structure Db where
  people : List PRec
  rels : List RelRec := []
  excludeSpurious : Bool := false
deriving DecidableEq, Repr

/-- Error conditions of the embedding (see the module docstring). -/
inductive FtError where
  | notFound
  | spurious
  | noneAttr
  | indexError
  | outOfFuel
deriving DecidableEq, Repr

/-- Raw row lookup by id in the `people` table. -/
def findRec (db : Db) (pid : Nat) : Option PRec :=
  db.people.find? (fun r => r.pid = pid)

/-- `Database.get_person` for an id, combined with `Family.person`'s
read-through cache: returns the unique record with this id, raising
`SpuriousConnection` when the record is flagged spurious and the session
excludes distant history, and a not-found error when no record exists. -/
def get_person (db : Db) (pid : Nat) : Except FtError PRec :=
  match findRec db pid with
  | none => .error .notFound
  | some r => if db.excludeSpurious && r.spurious then .error .spurious else .ok r

/-- `Person.father` (cached property): resolve `_father_id`, swallowing
`SpuriousConnection` by returning `None` so the branch is treated as absent. -/
def father (db : Db) (r : PRec) : Except FtError (Option Nat) :=
  match r.fatherId with
  | none => .ok none
  | some fid =>
    match get_person db fid with
    | .ok rf => .ok (some rf.pid)
    | .error .spurious => .ok none
    | .error e => .error e

/-- `Person.mother` (cached property), symmetric to `father`. -/
def mother (db : Db) (r : PRec) : Except FtError (Option Nat) :=
  match r.motherId with
  | none => .ok none
  | some mid =>
    match get_person db mid with
    | .ok rm => .ok (some rm.pid)
    | .error .spurious => .ok none
    | .error e => .error e

/-- The relationship records present in `Family.relationships` after
`add_all`: `Database.get_relationships` drops records whose endpoints are
spurious when the session excludes distant history. -/
def loaded_relationships (db : Db) : List RelRec :=
  if db.excludeSpurious then
    db.rels.filter (fun r =>
      (match findRec db r.aId with
       | some p => !p.spurious
       | none => false) &&
      (match findRec db r.bId with
       | some p => !p.spurious
       | none => false))
  else db.rels

/-- `Family.get_relationship`: lookup of `self.relationships[(a, b)]` by the
ordered pair of ids, returning `None` on a `KeyError`. -/
def get_relationship (db : Db) (a b : Nat) : Option RelRec :=
  (loaded_relationships db).find? (fun r => r.aId = a && r.bId = b)

/-- `Family.get_parents_id`: the parent-unit key for an optional father and
mother.  (The `lru_cache` memoization is invisible to a pure function.) -/
def get_parents_id (db : Db) (fatherP motherP : Option Nat) : Option String :=
  match fatherP, motherP with
  | some f, some m =>
    match get_relationship db f m with
    | some rel => some ("r" ++ toString rel.rid)
    | none =>
      match get_relationship db m f with
      | some rel => some ("r" ++ toString rel.rid)
      | none => some (toString f ++ "_" ++ toString m)
  | some f, none => some (toString f ++ "_x")
  | none, some m => some ("x_" ++ toString m)
  | none, none => none

/-- `Person.parents_id` for the person with record `r`:
`family.get_parents_id(self.father, self.mother)`. -/
def parents_id (db : Db) (r : PRec) : Except FtError (Option String) := do
  let f ← father db r
  let m ← mother db r
  pure (get_parents_id db f m)

/-- `Person.parents`: the tuple of the existing parents, father first. -/
def parentsOf (f m : Option Nat) : List Nat :=
  f.toList ++ m.toList

/-- The parents contributed by one member of an ancestor layer inside
`Family.kinship.all_parents`: `(x.father, x.mother)` with `None` dropped. -/
def person_parents (db : Db) (pid : Nat) : Except FtError (List Nat) := do
  let r ← get_person db pid
  let f ← father db r
  let m ← mother db r
  pure (parentsOf f m)

/-- `Family.kinship.all_parents`: all fathers and mothers of the people in a
layer, in layer order, father before mother, missing parents skipped. -/
def all_parents (db : Db) : List Nat → Except FtError (List Nat)
  | [] => .ok []
  | p :: rest => do
    let ps ← person_parents db p
    let rs ← all_parents db rest
    pure (ps ++ rs)

/-- `Family.kinship.search_nested`: index of the first layer of `haystack`
containing `needle`, if any. -/
def search_nested (needle : Nat) (haystack : List (List Nat)) : Option Nat :=
  haystack.findIdx? (fun layer => needle ∈ layer)

/-- `Family.kinship.calculate_kinship`: common ancestor, shorter leg, signed
depth difference. -/
def calculate_kinship (commonAncestor aDepth bDepth : Nat) : Nat × Nat × Int :=
  (commonAncestor, min aDepth bDepth, (aDepth : Int) - (bDepth : Int))

/-- The loop state of `Family.kinship`'s simultaneous upward search:
the two ancestor-layer sequences and the two exhaustion flags. -/
structure KState where
  aAncs : List (List Nat)
  bAncs : List (List Nat)
  aDone : Bool
  bDone : Bool
deriving DecidableEq, Repr

/-- Expansion of one side in one `while` iteration of `Family.kinship`: if
the side is not done, compute `all_parents` of its newest layer; an empty
result marks the side done, otherwise the layer is appended.  Returns the new
layer list, the new done flag and the parents just computed. -/
def expand_side (db : Db) (ancs : List (List Nat)) (done : Bool) :
    Except FtError (List (List Nat) × Bool × List Nat) :=
  if done then .ok (ancs, true, [])
  else
    match all_parents db (ancs.getLastD []) with
    | .error e => .error e
    | .ok [] => .ok (ancs, true, [])
    | .ok ps => .ok (ancs ++ [ps], false, ps)

/-- The first member of `parents` that occurs in some layer of `ancs`,
paired with the index of that layer (the match scan of `Family.kinship`). -/
def first_hit (parents : List Nat) (ancs : List (List Nat)) : Option (Nat × Nat) :=
  parents.findSome? (fun anc => (search_nested anc ancs).map (fun d => (anc, d)))

/-- One full iteration of the `while` loop of `Family.kinship`: expand the A
side, expand the B side, then scan A's new parents against B's layers and B's
new parents against A's layers.  `Sum.inl` is an early `return`, `Sum.inr`
the state for the next iteration. -/
def kinship_step (db : Db) (s : KState) :
    Except FtError ((Nat × Nat × Int) ⊕ KState) :=
  match expand_side db s.aAncs s.aDone with
  | .error e => .error e
  | .ok (aAncs', aDone', aParents) =>
    match expand_side db s.bAncs s.bDone with
    | .error e => .error e
    | .ok (bAncs', bDone', bParents) =>
      match if aDone' then none else first_hit aParents bAncs' with
      | some (anc, bDepth) =>
        .ok (.inl (calculate_kinship anc (aAncs'.length - 1) bDepth))
      | none =>
        match if bDone' then none else first_hit bParents aAncs' with
        | some (anc, aDepth) =>
          .ok (.inl (calculate_kinship anc aDepth (bAncs'.length - 1)))
        | none => .ok (.inr ⟨aAncs', bAncs', aDone', bDone'⟩)

/-- Outcome of the kinship search.  `outOfFuel` marks an embedding fuel
exhaustion, i.e. a Python `while` loop that has not terminated within the
given number of iterations. -/
inductive KOut where
  | found (r : Nat × Nat × Int)
  | noRelation
  | outOfFuel
deriving DecidableEq, Repr

/-- The `while not (a_done and b_done)` loop of `Family.kinship`, with
explicit fuel bounding the number of iterations. -/
def kinship_loop (db : Db) : Nat → KState → Except FtError KOut
  | fuel, s =>
    if s.aDone && s.bDone then .ok .noRelation
    else
      match fuel with
      | 0 => .ok .outOfFuel
      | fuel + 1 =>
        match kinship_step db s with
        | .error e => .error e
        | .ok (.inl r) => .ok (.found r)
        | .ok (.inr s') => kinship_loop db fuel s'

/-- `Family.kinship(person_a, person_b)`: resolve both persons (`add_all`
plus `Family.person`, which raises on a missing or excluded-spurious id),
short-circuit `(person, 0, 0)` on identity, then run the lockstep upward
search. -/
def kinship (db : Db) (personA personB : Nat) (fuel : Nat) :
    Except FtError KOut := do
  let ra ← get_person db personA
  let rb ← get_person db personB
  if ra.pid = rb.pid then
    pure (.found (ra.pid, 0, 0))
  else
    kinship_loop db fuel ⟨[[ra.pid]], [[rb.pid]], false, false⟩

/-! ## Generational layout builder -/

/-- A `Layer` of the layout: the ordered `people` list, the `groups`
mapping (a `defaultdict(list)` keyed by parent-unit key, in first-touch
order) and the `edges` mapping (parent-unit key to the `(left, right)`
partner pair, in insertion order).  People slots are `Option Nat` because
the code can place Python `None` in them. -/
structure Layer where
  people : List (Option Nat) := []
  groups : List (Option String × List (Option Nat)) := []
  edges : List (Option String × (Option Nat × Option Nat)) := []
deriving DecidableEq, Repr

/-- The fresh `{'people': [], 'groups': defaultdict(list), 'edges': {}}`. -/
def emptyLayer : Layer := {}

/-- `groups[key]` as a read: the list stored under `key`, defaulting to the
empty list (`defaultdict`). -/
def groups_get (groups : List (Option String × List (Option Nat)))
    (key : Option String) : List (Option Nat) :=
  ((groups.find? (fun g => g.1 = key)).map (fun g => g.2)).getD []

/-- `groups[key].append(v)`: extend the list under `key`, creating the entry
at the end when absent. -/
def groups_append (groups : List (Option String × List (Option Nat)))
    (key : Option String) (v : Option Nat) :
    List (Option String × List (Option Nat)) :=
  match groups with
  | [] => [(key, [v])]
  | g :: rest =>
    if g.1 = key then (g.1, g.2 ++ [v]) :: rest
    else g :: groups_append rest key v

/-- `chain(*groups.values())` membership domain. -/
def all_group_members (groups : List (Option String × List (Option Nat))) :
    List (Option Nat) :=
  groups.foldr (fun g acc => g.2 ++ acc) []

/-- `edges[id] = v`: update the entry when the key exists, append otherwise. -/
def edges_set (edges : List (Option String × (Option Nat × Option Nat)))
    (key : Option String) (v : Option Nat × Option Nat) :
    List (Option String × (Option Nat × Option Nat)) :=
  match edges with
  | [] => [(key, v)]
  | e :: rest =>
    if e.1 = key then (e.1, v) :: rest
    else e :: edges_set rest key v

/-- `list.index(v)` where the caller has established `v ∈ xs` (Python raises
`ValueError` otherwise; all uses below are membership-guarded). -/
def index_of (xs : List (Option Nat)) (v : Option Nat) : Nat :=
  (xs.findIdx? (fun x => x = v)).getD xs.length

/-- `list.insert(i, v)`. -/
def insertAt (xs : List (Option Nat)) (i : Nat) (v : Option Nat) :
    List (Option Nat) :=
  xs.take i ++ [v] ++ xs.drop i

/-- `Person._add_edge(layer, id, father, mother)`.  Returns `none` for the
`ValueError` of an unguarded `list.index` miss (possible only when a
previously recorded edge has members missing from `people`), otherwise the
updated layer and the boolean result. -/
def add_edge (layer : Layer) (id : Option String)
    (fatherP motherP : Option Nat) : Option (Layer × Bool) :=
  let edges := layer.edges
  let people := layer.people
  let lefts := edges.map (fun e => e.2.1)
  let rights := edges.map (fun e => e.2.2)
  if (fatherP, motherP) ∈ edges.map (fun e => e.2) ∨
      (motherP, fatherP) ∈ edges.map (fun e => e.2) then
    some (layer, true)
  else if (fatherP ∈ lefts ∧ fatherP ∈ rights) ∨
      (motherP ∈ rights ∧ motherP ∈ lefts) then
    some (layer, false)
  else
    let step1 :
        Option (List (Option String × (Option Nat × Option Nat)) ×
                List (Option Nat)) :=
      if fatherP ∈ lefts then
        match edges.findIdx? (fun e => e.2.1 = fatherP) with
        | none => none
        | some i =>
          match edges.get? i with
          | none => none
          | some prevEdge =>
            let prevMother := prevEdge.2.2
            let edges' := edges.set i (prevEdge.1, (prevMother, fatherP))
            if fatherP ∈ people ∧ prevMother ∈ people then
              let fIdx := index_of people fatherP
              let mIdx := index_of people prevMother
              some (edges', (people.set fIdx prevMother).set mIdx fatherP)
            else none
      else some (edges, people)
    match step1 with
    | none => none
    | some (edges1, people1) =>
      let lr := if motherP ∈ rights then (motherP, fatherP) else (fatherP, motherP)
      let left := lr.1
      let right := lr.2
      let people2 :=
        if right ∈ people1 ∧ left ∉ people1 then
          insertAt people1 (index_of people1 right) left
        else people1
      let people3 :=
        if left ∈ people2 ∧ right ∉ people2 then
          insertAt people2 (index_of people2 left + 1) right
        else people2
      some ({ people := people3
              groups := layer.groups
              edges := edges_set edges1 id lr }, true)

/-- One candidate parent of the append comprehension in
`Person.get_ancestor_layers`: `none` when the slot is empty or the parent is
already in its group, otherwise the parent and its parent-unit key. -/
def parent_entry (db : Db) (L : Layer) :
    Option Nat → Except FtError (Option (Nat × Option String))
  | none => pure none
  | some p => do
    let rp ← get_person db p
    let key ← parents_id db rp
    if some p ∈ groups_get L.groups key then pure none
    else pure (some (p, key))

/-- Append a kept parent to a layer's `people` and its group. -/
def apply_parent_entry (L : Layer) : Option (Nat × Option String) → Layer
  | none => L
  | some (p, key) =>
    { L with
      people := L.people ++ [some p]
      groups := groups_append L.groups key (some p) }

/-- `Person.get_ancestor_layers(level, layers)`: the recursive ancestor walk.
Fuel bounds the recursion depth (Python recurses without a cycle guard). -/
def get_ancestor_layers_aux (db : Db) :
    Nat → Nat → Nat → List Layer → Except FtError (List Layer)
  | 0, _, _, _ => .error .outOfFuel
  | fuel + 1, pid, level, layers0 => do
    let layers := if layers0.length ≤ level then layers0 ++ [emptyLayer] else layers0
    let r ← get_person db pid
    let f ← father db r
    let m ← mother db r
    let layers ←
      match f with
      | some fid => get_ancestor_layers_aux db fuel fid (level + 1) layers
      | none => pure layers
    let layers ←
      match m with
      | some mid => get_ancestor_layers_aux db fuel mid (level + 1) layers
      | none => pure layers
    let L := layers.getD level emptyLayer
    let eF ← parent_entry db L f
    let eM ← parent_entry db L m
    let L := apply_parent_entry (apply_parent_entry L eF) eM
    let layers := layers.set level L
    match f, m with
    | some fid, some mid =>
      match add_edge (layers.getD level emptyLayer) (get_parents_id db f m)
              (some fid) (some mid) with
      | none => .error .indexError
      | some (L', _) => pure (layers.set level L')
    | _, _ => pure layers

/-- `Person.get_ancestor_layers()` at level 0: run the walk and return
`layers[-2::-1]` (drop the empty final layer, most distant ancestors first). -/
def get_ancestor_layers (db : Db) (fuel : Nat) (pid : Nat) :
    Except FtError (List Layer) := do
  let layers ← get_ancestor_layers_aux db fuel pid 0 []
  pure layers.dropLast.reverse

/-- `Person.children`: ids of the people naming `pid` as father or mother, in
table order (the `ORDER BY spurious, date_of_birth, person_id` of the query
and the `sorted(...)` by birth date are collapsed to table order, as dates
are not modelled); each child id is resolved through `Family.person`, which
raises for an excluded-spurious child. -/
def children (db : Db) (pid : Nat) : Except FtError (List Nat) := do
  let ids := (db.people.filter
    (fun r => r.fatherId = some pid || r.motherId = some pid)).map (fun r => r.pid)
  let _ ← ids.mapM (fun cid => get_person db cid)
  pure ids

/-- The per-parent body of the child loop of `Person.get_descendant_layers`:
ensure the parent is in the previous layer's `people`, and if it is in no
group yet, add it to its group and record the co-parent edge under the
child's parent-unit key. -/
def process_parent (db : Db) (ckey : Option String) (cf cm : Option Nat)
    (prev : Layer) (parent : Nat) : Except FtError Layer := do
  let prev :=
    if (some parent) ∈ prev.people then prev
    else { prev with people := prev.people ++ [some parent] }
  if (some parent) ∈ all_group_members prev.groups then pure prev
  else do
    let rp ← get_person db parent
    let pkey ← parents_id db rp
    let prev := { prev with groups := groups_append prev.groups pkey (some parent) }
    match add_edge prev ckey cf cm with
    | none => .error .indexError
    | some (prev', _) => pure prev'

/-- The recursive part of `Person.get_descendant_layers` (a call with
`layers` already present: `people = [self]`, walk `self.children`).  The
`include_partners`/`include_siblings` flags are not passed down by the
source's recursive call, so they do not appear here. -/
def get_descendant_layers_aux (db : Db) :
    Nat → Nat → Nat → List Layer → Except FtError (List Layer)
  | 0, _, _, _ => .error .outOfFuel
  | fuel + 1, pid, level, layers0 => do
    let kids ← children db pid
    if kids.isEmpty then pure layers0
    else do
      let layers := if layers0.length ≤ level then layers0 ++ [emptyLayer] else layers0
      let kept ← kids.filterM (fun c => do
        let rc ← get_person db c
        let ckey ← parents_id db rc
        pure (decide ((some c) ∉ groups_get (layers.getD level emptyLayer).groups ckey)))
      kept.foldlM (fun layers c => do
        let rc ← get_person db c
        let cf ← father db rc
        let cm ← mother db rc
        let ckey := get_parents_id db cf cm
        let L := layers.getD level emptyLayer
        let L := { L with
          people := L.people ++ [some c]
          groups := groups_append L.groups ckey (some c) }
        let layers := layers.set level L
        let layers ← (parentsOf cf cm).foldlM (fun layers parent => do
          let prev ← process_parent db ckey cf cm
            (layers.getD (level - 1) emptyLayer) parent
          pure (layers.set (level - 1) prev)) layers
        get_descendant_layers_aux db fuel c (level + 1) layers) layers

/-- The layer-0 ancestor-linking step of `Person.get_descendant_layers`:
ensure the subject's father and mother appear in the last ancestor layer.
The people append happens before `parents_id` is read off the parent, so a
missing parent (`None`) is appended and then raises `AttributeError`
(`noneAttr`) on `None.parents_id`. -/
def link_parent (db : Db) (last : Layer) (p : Option Nat) :
    Except FtError Layer :=
  if p ∈ last.people then pure last
  else do
    let last := { last with people := last.people ++ [p] }
    match p with
    | none => .error .noneAttr
    | some pp => do
      let rp ← get_person db pp
      let pkey ← parents_id db rp
      pure { last with groups := groups_append last.groups pkey p }

/-- `Person.get_descendant_layers(include_partners=False,
include_siblings=False, ancestor_layers=...)`, the outer call: build layer 0
from the subject, link the subject's parents into the last ancestor layer
(mutating it), then walk the children from level 1.  Returns the mutated
ancestor layers together with the descendant layers.  The two flags are
specialized to their default `False`, the only configuration the verified
claims concern. -/
def get_descendant_layers (db : Db) (fuel : Nat) (pid : Nat)
    (ancestorLayers : List Layer) :
    Except FtError (List Layer × List Layer) := do
  let r ← get_person db pid
  let key ← parents_id db r
  let L0 := { emptyLayer with
    people := [some pid]
    groups := groups_append [] key (some pid) }
  let layers := [L0]
  let anc ←
    if ancestorLayers.isEmpty then pure ancestorLayers
    else do
      let f ← father db r
      let m ← mother db r
      let last := ancestorLayers.getLastD emptyLayer
      let last ← link_parent db last f
      let last ← link_parent db last m
      let last ←
        match f, m with
        | some _, some _ =>
          match add_edge last (get_parents_id db f m) f m with
          | none => .error .indexError
          | some (l', _) => pure l'
        | _, _ => pure last
      pure (ancestorLayers.dropLast ++ [last])
  let layers ← get_descendant_layers_aux db fuel pid 1 layers
  pure (anc, layers)

/-- `Person.get_layers()` (with the default `include_partners=False`,
`include_siblings=False`): ancestor pass, descendant pass against it, and
their concatenation. -/
def get_layers (db : Db) (fuel : Nat) (pid : Nat) :
    Except FtError (List Layer) := do
  let anc ← get_ancestor_layers db fuel pid
  let (anc', desc) ← get_descendant_layers db fuel pid anc
  pure (anc' ++ desc)

/-! ## Kinship term derivation -/

/-- `Person.kinship_term.calc_term`: the base table from `(degree,
generation-difference, gender)` to a blood-kinship term. -/
def calc_term (short : Nat) (diff : Int) (g : Gender) : Option String :=
  match short, diff, g with
  | 0, 0, _ => some "self"
  | 1, 0, .male => some "brother"
  | 1, 0, .female => some "sister"
  | 1, 0, _ => some "sibling"
  | 0, 1, .male => some "father"
  | 0, 1, .female => some "mother"
  | 0, 1, _ => some "parent"
  | 0, -1, .male => some "son"
  | 0, -1, .female => some "daughter"
  | 0, -1, _ => some "child"
  | 1, 1, .male => some "uncle"
  | 1, 1, .female => some "aunt"
  | 1, 1, _ => some "parent’s sibling"
  | 1, -1, .male => some "nephew"
  | 1, -1, .female => some "niece"
  | 1, -1, _ => some "sibling’s child"
  | 0, 2, .male => some "grandfather"
  | 0, 2, .female => some "grandmother"
  | 0, 2, _ => some "grandparent"
  | 0, -2, .male => some "grandson"
  | 0, -2, .female => some "granddaughter"
  | 0, -2, _ => some "grandchild"
  | 1, 2, .male => some "great uncle"
  | 1, 2, .female => some "great aunt"
  | 1, 2, _ => some "grandparent’s sibling"
  | 1, -2, .male => some "great nephew"
  | 1, -2, .female => some "great niece"
  | 1, -2, _ => some "sibling’s grandchild"
  | 2, 0, _ => some "cousin"
  | _, _, _ => none

/-- `Person.kinship_term.calc_spousal_term`. -/
def calc_spousal_term (short : Nat) (diff : Int) (g : Gender) : Option String :=
  match short, diff, g with
  | 0, 0, .male => some "husband"
  | 0, 0, .female => some "wife"
  | 0, 0, _ => some "spouse"
  | 1, 0, .male => some "brother-in-law"
  | 1, 0, .female => some "sister-in-law"
  | 1, 0, _ => some "sibling-in-law"
  | 0, 1, .male => some "father-in-law"
  | 0, 1, .female => some "mother-in-law"
  | 0, 1, _ => some "parent-in-law"
  | 0, -1, .male => some "stepson"
  | 0, -1, .female => some "stepdaughter"
  | 0, -1, _ => some "stepchild"
  | 1, -1, .male => some "nephew by marriage"
  | 1, -1, .female => some "niece by marriage"
  | 1, -1, _ => some "spouse’s sibling’s child"
  | 0, 2, .male => some "grandfather-in-law"
  | 0, 2, .female => some "grandmother-in-law"
  | 0, 2, _ => some "grandparent-in-law"
  | _, _, _ => none

/-- `Person.kinship_term.calc_affine_term`. -/
def calc_affine_term (short : Nat) (diff : Int) (g : Gender) : Option String :=
  match short, diff, g with
  | 1, 0, .male => some "brother-in-law"
  | 1, 0, .female => some "sister-in-law"
  | 1, 0, _ => some "sibling-in-law"
  | 0, 1, .male => some "stepfather"
  | 0, 1, .female => some "stepmother"
  | 0, 1, _ => some "step-parent"
  | 0, -1, .male => some "son-in-law"
  | 0, -1, .female => some "daughter-in-law"
  | 1, 1, .male => some "uncle by marriage"
  | 1, 1, .female => some "aunt by marriage"
  | 1, 2, .male => some "great uncle by marriage"
  | 1, 2, .female => some "great aunt by marriage"
  | _, _, _ => none

/-- Modelled from the external `inflect` library:
`p.number_to_words(p.ordinal(n))` for the small ordinals the term builder
reaches ("first", "second", ...); beyond the modelled range the numeric
ordinal is used as an approximation (no verified claim reaches it). -/
def ordinal_word : Nat → String
  | 1 => "first"
  | 2 => "second"
  | 3 => "third"
  | 4 => "fourth"
  | 5 => "fifth"
  | 6 => "sixth"
  | 7 => "seventh"
  | 8 => "eighth"
  | 9 => "ninth"
  | 10 => "tenth"
  | 11 => "eleventh"
  | 12 => "twelfth"
  | n => toString n ++ "th"

/-- Modelled from the external `inflect` library: `p.number_to_words(n)` for
the small cardinals the removal suffix reaches. -/
def number_word : Nat → String
  | 4 => "four"
  | 5 => "five"
  | 6 => "six"
  | 7 => "seven"
  | 8 => "eight"
  | 9 => "nine"
  | 10 => "ten"
  | n => toString n

/-- Modelled from the spec: the `max_great_levels` entry of the
`family_tree` section of the external `config.ini` (absent from the
repository), the "configurable threshold" that switches long chains of
"great-" to an ordinal-numeral form. -/
def max_great_levels : Nat := 3

/-- `Person.kinship_term.calc_extended_term`: terms beyond the base table,
built from "great"-chains (degree 0/1) or ordinal cousin names with a
removal suffix (degree ≥ 2). -/
def calc_extended_term (short : Nat) (diff : Int) (g : Gender) : String :=
  if short = 0 ∨ short = 1 then
    let levels := diff.natAbs - 2
    let pre :=
      if levels ≤ max_great_levels then
        String.intercalate "-" (List.replicate levels "great") ++ " grand"
      else
        ordinal_word levels ++ "-great grand"
    let sign : Int := if diff > 0 then 1 else -1
    pre ++ (calc_term short sign g).getD ""
  else
    let term := ordinal_word (short - 1) ++ " cousin"
    if diff ≠ 0 then
      let removal :=
        match diff.natAbs with
        | 1 => "once"
        | 2 => "twice"
        | 3 => "thrice"
        | d => number_word d ++ " times"
      term ++ " " ++ removal ++ " removed"
    else term

/-- The blood-kinship term for a resolved `(degree, generationDifference)`
pair: the base table, falling back to `calc_extended_term` when the table
has no entry (the `if not term:` fallback of `Person.kinship_term`). -/
def kinship_pair_term (short : Nat) (diff : Int) (g : Gender) : String :=
  (calc_term short diff g).getD (calc_extended_term short diff g)

/-- `Relationship.ex_prefix`: "ex-" when the relationship ended in divorce
or separation. -/
def ex_mark (endType : Option String) : String :=
  if endType = some "divorce" ∨ endType = some "separation" then "ex-" else ""

/-- One element of `Person.relationships`: the fields of the
`Relationship` object that `kinship_term` reads. -/
structure RelView where
  rid : Nat
  rtype : String
  endType : Option String
  partnerId : Nat
deriving DecidableEq, Repr

/-- `Person.relationships` (cached property): one `Relationship` per
`Database.get_partners` row (the relationships involving the person, in
table order — the `ORDER BY spurious, start_date, relationship_id` is
collapsed to table order as dates are not modelled).  Each partner is
resolved through `Family.person` (which can raise), and a session-tracked
record found under the ordered key `(self, partner)` takes precedence over
the joined row; its `partner` attribute is its `person_b`. -/
def person_relationships (db : Db) (selfId : Nat) :
    Except FtError (List RelView) := do
  let involving := db.rels.filter (fun r => r.aId = selfId || r.bId = selfId)
  involving.mapM (fun r => do
    let otherId := if r.aId = selfId then r.bId else r.aId
    let rp ← get_person db otherId
    match get_relationship db selfId rp.pid with
    | some cr => pure { rid := cr.rid, rtype := cr.rtype, endType := cr.endType,
                        partnerId := cr.bId }
    | none => pure { rid := r.rid, rtype := r.rtype, endType := r.endType,
                     partnerId := rp.pid })

/-- Python `str.replace` (all non-overlapping occurrences, left to right) on
character lists.  The fuel argument (instantiated with the string length,
which bounds the number of steps) keeps the recursion structural. -/
def replace_go (pat rep : List Char) : Nat → List Char → List Char
  | _, [] => []
  | 0, s => s
  | fuel + 1, c :: rest =>
    if pat ≠ [] ∧ pat.isPrefixOf (c :: rest) then
      rep ++ replace_go pat rep fuel (rest.drop (pat.length - 1))
    else
      c :: replace_go pat rep fuel rest

/-- Python `str.replace` on strings. -/
def str_replace (s pat rep : String) : String :=
  ⟨replace_go pat.data rep.data s.data.length s.data⟩

/-- The in-law search loop over `self.relationships` in
`Person.kinship_term` (first loop): returns the built prefix, the optional
term and the `(degree, difference)` of the first partner with a kinship to
`person`, or `none` when the loop falls through. -/
def first_partner_loop (db : Db) (fuel : Nat) (otherId : Nat)
    (otherGender : Gender) :
    List RelView → Except FtError (Option (String × Option String × Nat × Int))
  | [] => pure none
  | rel :: rest => do
    let k ← kinship db rel.partnerId otherId fuel
    match k with
    | .outOfFuel => .error .outOfFuel
    | .noRelation => first_partner_loop db fuel otherId otherGender rest
    | .found (_, short, diff) =>
      let spousal : Option String :=
        if rel.rtype = "marriage" then calc_spousal_term short diff otherGender
        else none
      match spousal with
      | some t => pure (some ("", some (ex_mark rel.endType ++ t), short, diff))
      | none => do
        let rPartner ← get_person db rel.partnerId
        let pre :=
          if rel.rtype = "marriage" then
            match rPartner.gender with
            | .male => ex_mark rel.endType ++ "husband’s "
            | .female => ex_mark rel.endType ++ "wife’s "
            | .unknown => ex_mark rel.endType ++ "spouse’s "
          else ex_mark rel.endType ++ "partner’s "
        pure (some (pre, calc_term short diff otherGender, short, diff))

/-- The in-law search loop over `person.relationships` in
`Person.kinship_term` (second loop).  The source `break`s only in the
non-affine branch, so an affine match keeps iterating and its `kinship`
value can be overwritten by a later partner; the accumulator carries the
last `kinship` value, the current term and the current suffix exactly as
the Python locals do. -/
def second_partner_loop (db : Db) (fuel : Nat) (selfId : Nat)
    (otherGender : Gender) :
    List RelView → Option (Nat × Int) → Option String → String →
    Except FtError (Option (Nat × Int) × Option String × String)
  | [], kin, term?, suf => pure (kin, term?, suf)
  | rel :: rest, _, term?, suf => do
    let k ← kinship db selfId rel.partnerId fuel
    match k with
    | .outOfFuel => .error .outOfFuel
    | .noRelation => second_partner_loop db fuel selfId otherGender rest none term? suf
    | .found (_, short, diff) =>
      let affine : Option String :=
        if rel.rtype = "marriage" then calc_affine_term short diff otherGender
        else none
      match affine with
      | some t =>
        second_partner_loop db fuel selfId otherGender rest
          (some (short, diff)) (some (ex_mark rel.endType ++ t)) suf
      | none => do
        let rPartner ← get_person db rel.partnerId
        let term := calc_term short diff rPartner.gender
        let suf :=
          if rel.rtype = "marriage" then
            match otherGender with
            | .male => "’s " ++ ex_mark rel.endType ++ "husband"
            | .female => "’s " ++ ex_mark rel.endType ++ "wife"
            | .unknown => "’s " ++ ex_mark rel.endType ++ "spouse"
          else "’s " ++ ex_mark rel.endType ++ "partner"
        pure (some (short, diff), term, suf)

/-- `Person.kinship_term(person)`: blood kinship first, then the two in-law
loops, the extended-term fallback, and the final `self`-cleanup
replacements. -/
def kinship_term (db : Db) (selfId otherId : Nat) (fuel : Nat) :
    Except FtError String := do
  let rOther ← get_person db otherId
  let k ← kinship db selfId otherId fuel
  let state ←
    match k with
    | .found (_, s, d) =>
      pure (("", "", some (s, d), calc_term s d rOther.gender))
    | .outOfFuel => .error .outOfFuel
    | .noRelation => do
      let selfRels ← person_relationships db selfId
      let r1 ← first_partner_loop db fuel otherId rOther.gender selfRels
      match r1 with
      | some (pre, t?, s, d) => pure ((pre, "", some (s, d), t?))
      | none => do
        let otherRels ← person_relationships db otherId
        let (kin, t?, suf) ←
          second_partner_loop db fuel selfId rOther.gender otherRels none none ""
        pure (("", suf, kin, t?))
  match state with
  | (_, _, none, _) => pure "no blood relation"
  | (pre, suf, some (s, d), term?) =>
    let term := term?.getD (calc_extended_term s d rOther.gender)
    let out := pre ++ term ++ suf
    pure (str_replace (str_replace out "self’s " "") "’s self" "")

/-! ## Concrete families used as inputs -/

/-- Two double-linked lines: `20` is `1`'s great-grandfather and `2`'s
father, while `21` is `1`'s great-grandmother and `2`'s
great-great-grandmother (through `22` and `23`), so two different common
ancestors surface at the same search step. -/
def dbDoubleLink : Db := { people := [
  { pid := 1, fatherId := some 11 },
  { pid := 2, fatherId := some 20, motherId := some 22 },
  { pid := 11, fatherId := some 12 },
  { pid := 12, fatherId := some 20, motherId := some 21 },
  { pid := 20 }, { pid := 21 },
  { pid := 22, motherId := some 23 },
  { pid := 23, motherId := some 21 } ] }

/-- A family whose generation-3 ancestors form three overlapping parent
pairs `(7,8)`, `(7,9)` and `(10,8)`: subject `1`, parents `2`/`3`,
grandparents `4`,`5` (parents of `2`) and `6` (father of `3`), with
`4 = (7,8)`, `5 = (7,9)` and `6 = (10,8)`. -/
def dbHalfSib : Db := { people := [
  { pid := 1, fatherId := some 2, motherId := some 3 },
  { pid := 2, fatherId := some 4, motherId := some 5 },
  { pid := 3, fatherId := some 6 },
  { pid := 4, fatherId := some 7, motherId := some 8 },
  { pid := 5, fatherId := some 7, motherId := some 9 },
  { pid := 6, fatherId := some 10, motherId := some 8 },
  { pid := 7 }, { pid := 8 }, { pid := 9 }, { pid := 10 } ] }

/-- Cyclic parent data: person `1` is recorded as their own father
(a data-entry error), person `2` is unrelated. -/
def dbCycle : Db := { people := [
  { pid := 1, fatherId := some 1 }, { pid := 2 } ] }

/-- A subject with exactly one known parent: `1`'s father is `2`, the
mother is unrecorded. -/
def dbOneParent : Db := { people := [
  { pid := 1, fatherId := some 2 }, { pid := 2 } ] }

/-- Two partners whose relationship record is stored under the ordered key
`(1, 2)` only. -/
def dbOrdered : Db := {
  people := [ { pid := 1 }, { pid := 2 } ]
  rels := [ { rid := 5, aId := 1, bId := 2 } ] }

/-- A session that excludes distant history, with a spurious grandfather:
`1`'s father is `2`, `2`'s father is the spurious `3`; `9` is unrelated. -/
def dbSpur : Db := {
  people := [
    { pid := 1, fatherId := some 2 },
    { pid := 2, fatherId := some 3 },
    { pid := 3, spurious := true },
    { pid := 9 } ]
  excludeSpurious := true }

/-- A three-person family used by the witnesses: child `1` with father `2`
and mother `3`. -/
def dbTriple : Db := { people := [
  { pid := 1, gender := .male, fatherId := some 2, motherId := some 3 },
  { pid := 2, gender := .male }, { pid := 3, gender := .female } ] }

/-! ## C2 — adjacency invariant of recorded edges -/

/-- Whether every recorded edge of a layer joins people adjacent in the
layer's ordering: the index of `right` equals the index of `left` plus 1. -/
def adjacency_ok (L : Layer) : Bool :=
  L.edges.all (fun e =>
    index_of L.people e.2.2 = index_of L.people e.2.1 + 1)

/-- C2: the adjacency invariant FAILS on the code.  On `dbHalfSib` the
finished outermost ancestor layer is `[8, 7, 9, 10]` with recorded edges
`(8,7)`, `(7,9)` and `(10,8)`; the edge `(10,8)` has `left = 10` at index 3
and `right = 8` at index 0, because `_add_edge` records an edge without any
repositioning when both members are already present in `people`. -/
theorem adjacency_invariant_violated :
    (get_ancestor_layers dbHalfSib 12 1).map
        (fun ls => (ls.headD emptyLayer).people) =
      .ok [some 8, some 7, some 9, some 10] ∧
    (get_ancestor_layers dbHalfSib 12 1).map
        (fun ls => (ls.headD emptyLayer).edges) =
      .ok [(some "7_8", (some 8, some 7)), (some "7_9", (some 7, some 9)),
           (some "10_8", (some 10, some 8))] ∧
    (get_ancestor_layers dbHalfSib 12 1).map
        (fun ls => (ls.headD emptyLayer |> adjacency_ok)) = .ok false := by
  refine ⟨rfl, rfl, rfl⟩

/-! ## C10 — a subject with exactly one known parent -/

/-- C10: the claim FAILS on the code.  For subject `1` with a father but no
mother, `get_layers` does not complete: the layer-0 ancestor-linking step of
the descendant pass appends `None` to the last ancestor layer's people list
and then raises `AttributeError` on `None.parents_id`. -/
theorem single_parent_layers_crash :
    get_layers dbOneParent 12 1 = .error .noneAttr := by
  rfl

/-! ## C3 — kinship on cyclic parent data -/

/-- On `dbCycle`, each iteration of the kinship search from a state whose
newest A-layer is `[1]` (with the B side exhausted at `[[2]]`) produces a
state of the same shape again, so the loop never terminates. -/
theorem kinship_loop_cycle (fuel : Nat) :
    ∀ ancs : List (List Nat), ancs.getLastD [] = [1] →
      kinship_loop dbCycle fuel ⟨ancs, [[2]], false, true⟩ = .ok .outOfFuel := by
  induction fuel with
  | zero => intro ancs h; rfl
  | succ n ih =>
    intro ancs h
    have hstep : kinship_step dbCycle ⟨ancs, [[2]], false, true⟩ =
        .ok (.inr ⟨ancs ++ [[1]], [[2]], false, true⟩) := by
      simp only [kinship_step, expand_side, h]
      rfl
    simp only [kinship_loop, hstep]
    exact ih (ancs ++ [[1]]) (by simp [List.getLastD_concat])

/-- C3: the claim that `kinship` terminates on every input is RIGHT about
the intent but WRONG about the code: there is no visited-id tracking, and
with person `1` recorded as their own father, `kinship(1, 2)` runs out of
any amount of fuel — the Python `while` loop never terminates. -/
theorem kinship_cycle_nontermination (fuel : Nat) :
    kinship dbCycle 1 2 fuel = .ok .outOfFuel := by
  match fuel with
  | 0 => rfl
  | n + 1 =>
    have h0 : kinship dbCycle 1 2 (n + 1) =
        kinship_loop dbCycle (n + 1) ⟨[[1]], [[2]], false, false⟩ := rfl
    have hstep : kinship_step dbCycle ⟨[[1]], [[2]], false, false⟩ =
        .ok (.inr ⟨[[1], [1]], [[2]], false, true⟩) := rfl
    have h1 : kinship_loop dbCycle (n + 1) ⟨[[1]], [[2]], false, false⟩ =
        kinship_loop dbCycle n ⟨[[1], [1]], [[2]], false, true⟩ := by
      simp only [kinship_loop, hstep]
      rfl
    rw [h0, h1]
    exact kinship_loop_cycle n [[1], [1]] rfl

/-! ## C1 — symmetry of kinship (counterexample part) -/

/-- C1: the symmetry claim FAILS on the code as stated.  On `dbDoubleLink`,
`kinship(1, 2)` reports common ancestor `20` with degree `1` and generation
difference `2`, while `kinship(2, 1)` reports common ancestor `21` with
degree `3` and generation difference `0`: the two directions agree on none
of the three components when several common ancestors surface at the same
search step. -/
theorem kinship_symmetry_counterexample :
    kinship dbDoubleLink 1 2 12 = .ok (.found (20, 1, 2)) ∧
    kinship dbDoubleLink 2 1 12 = .ok (.found (21, 3, 0)) ∧
    ¬((20 : Nat) = 21 ∧ (1 : Nat) = 3 ∧ (2 : Int) = -(0 : Int)) :=
  ⟨rfl, rfl, by decide⟩

/-! ## C4 — cousin terms -/

/-- C4: the mapping claimed for degree 2, difference 0 FAILS on the code:
`calc_term` maps `(2, 0)` to the base-table entry `"cousin"`, not
`"first cousin"` (the ordinal form is produced only by
`calc_extended_term`, which is reached only when the base table has no
entry). -/
theorem cousin_term_counterexample :
    kinship_pair_term 2 0 .female = "cousin" ∧
    "cousin" ≠ "first cousin" :=
  ⟨rfl, by decide⟩

/-- C4 (amended): for every gender, degree 2 with difference 0 yields
`"cousin"`; degree 3 with difference 0 yields `"second cousin"`; degree 2
with difference 1 yields `"first cousin once removed"`. -/
theorem cousin_terms_amended (g : Gender) :
    kinship_pair_term 2 0 g = "cousin" ∧
    kinship_pair_term 3 0 g = "second cousin" ∧
    kinship_pair_term 2 1 g = "first cousin once removed" := by
  cases g <;> exact ⟨rfl, rfl, rfl⟩

/-! ## C9 — relationship lookup order -/

/-- C9: the unordered-lookup claim FAILS on the code.  With the record
stored under the ordered key `(1, 2)`, `Family.get_relationship(1, 2)`
returns it but `Family.get_relationship(2, 1)` returns `None`: the lookup
tries only the ordered pair. -/
theorem relationship_lookup_ordered_counterexample :
    get_relationship dbOrdered 1 2 = some { rid := 5, aId := 1, bId := 2 } ∧
    get_relationship dbOrdered 2 1 = none :=
  ⟨rfl, rfl⟩

/-- C9 (amended): `Family.get_relationship` looks the pair up in stored
order only; unordered behaviour is realized by its callers —
`Family.get_parents_id` tries both orders, so it derives the same
relationship key for `(a, b)` and `(b, a)` whenever the record is stored
under one order only. -/
theorem get_parents_id_unordered (db : Db) (a b : Nat) (r : RelRec)
    (h1 : get_relationship db a b = some r)
    (h2 : get_relationship db b a = none) :
    get_parents_id db (some a) (some b) = some ("r" ++ toString r.rid) ∧
    get_parents_id db (some b) (some a) = some ("r" ++ toString r.rid) := by
  constructor <;> simp [get_parents_id, h1, h2]

/-- Witness for `get_parents_id_unordered` at `dbOrdered`. -/
theorem get_parents_id_unordered_witness :
    get_parents_id dbOrdered (some 1) (some 2) = some ("r" ++ toString 5) ∧
    get_parents_id dbOrdered (some 2) (some 1) = some ("r" ++ toString 5) :=
  get_parents_id_unordered dbOrdered 1 2 { rid := 5, aId := 1, bId := 2 } rfl rfl

/-! ## C6 — parent-unit key derivation -/

/-- C6: `get_parents_id` realizes exactly the four-case description of the
spec: a relationship-derived key when both parents are given and a record
exists in either role order; a key synthesized from the two ids when both
are given and no record exists; a single id plus the placeholder `x` when
exactly one parent is given; `None` when neither is. -/
theorem get_parents_id_spec (db : Db) (f m : Option Nat) :
    (∀ ff mm, f = some ff → m = some mm →
      (∃ rel, (get_relationship db ff mm = some rel ∨
          (get_relationship db ff mm = none ∧
           get_relationship db mm ff = some rel)) ∧
        get_parents_id db f m = some ("r" ++ toString rel.rid)) ∨
      (get_relationship db ff mm = none ∧ get_relationship db mm ff = none ∧
        get_parents_id db f m = some (toString ff ++ "_" ++ toString mm))) ∧
    (∀ ff, f = some ff → m = none →
      get_parents_id db f m = some (toString ff ++ "_x")) ∧
    (∀ mm, f = none → m = some mm →
      get_parents_id db f m = some ("x_" ++ toString mm)) ∧
    (f = none → m = none → get_parents_id db f m = none) := by
  refine ⟨?_, ?_, ?_, ?_⟩
  · rintro ff mm rfl rfl
    cases h1 : get_relationship db ff mm with
    | some rel => exact .inl ⟨rel, .inl rfl, by simp [get_parents_id, h1]⟩
    | none =>
      cases h2 : get_relationship db mm ff with
      | some rel => exact .inl ⟨rel, .inr ⟨rfl, rfl⟩, by simp [get_parents_id, h1, h2]⟩
      | none => exact .inr ⟨rfl, rfl, by simp [get_parents_id, h1, h2]⟩
  · rintro ff rfl rfl; rfl
  · rintro mm rfl rfl; rfl
  · rintro rfl rfl; rfl

/-- Witness for `get_parents_id_spec`: the single-parent and no-parent
cases at `dbTriple`. -/
theorem get_parents_id_spec_witness :
    get_parents_id dbTriple (some 2) none = some (toString 2 ++ "_x") ∧
    get_parents_id dbTriple none none = none :=
  ⟨(get_parents_id_spec dbTriple (some 2) none).2.1 2 rfl rfl,
   (get_parents_id_spec dbTriple none none).2.2.2 rfl rfl⟩

/-! ## C7 — self-kinship -/

/-- The record returned by a successful person lookup carries the requested
id. -/
theorem get_person_pid {db : Db} {p : Nat} {r : PRec}
    (h : get_person db p = .ok r) : r.pid = p := by
  unfold get_person at h
  cases hf : findRec db p with
  | none => rw [hf] at h; cases h
  | some rr =>
    rw [hf] at h
    dsimp only at h
    split at h
    · cases h
    · cases h
      unfold findRec at hf
      have hb := List.find?_some hf
      simpa using hb

/-- C7: for every session-resolvable person P, `kinship(P, P)` short-circuits
to `(P, 0, 0)` and `kinship_term(P, P)` is the string `"self"` (the base
table maps `(0, 0)` to `"self"` for every gender, and the cleanup
replacements leave it unchanged). -/
theorem self_kinship (db : Db) (p : Nat) (r : PRec) (fuel : Nat)
    (h : get_person db p = .ok r) :
    kinship db p p fuel = .ok (.found (p, 0, 0)) ∧
    kinship_term db p p fuel = .ok "self" := by
  have hpid := get_person_pid h
  have hk : kinship db p p fuel = .ok (.found (p, 0, 0)) := by
    simp only [kinship, h, bind, Except.bind, hpid, pure, Except.pure]
    simp
  refine ⟨hk, ?_⟩
  have hct : calc_term 0 0 r.gender = some "self" := by
    cases r.gender <;> rfl
  simp only [kinship_term, h, hk, bind, Except.bind, pure, Except.pure, hct]
  rfl

/-- Witness for `self_kinship` at person `1` of `dbTriple`. -/
theorem self_kinship_witness :
    kinship dbTriple 1 1 5 = .ok (.found (1, 0, 0)) ∧
    kinship_term dbTriple 1 1 5 = .ok "self" :=
  self_kinship dbTriple 1
    { pid := 1, gender := .male, fatherId := some 2, motherId := some 3 } 5 rfl

/-! ## C5 — idempotence of `_add_edge` -/

/-- The value just written by `edges_set` is among the edge values. -/
theorem edges_set_val_mem (es : List (Option String × (Option Nat × Option Nat)))
    (k : Option String) (v : Option Nat × Option Nat) :
    v ∈ (edges_set es k v).map (fun e => e.2) := by
  induction es with
  | nil => simp [edges_set]
  | cons e rest ih => by_cases h : e.1 = k <;> simp [edges_set, h, ih]

/-- C5: `_add_edge` is idempotent.  Whatever the first call did (no-op on a
duplicate, rejection, or recording the edge), a second call with the same
pair — in the same or reversed left/right order and under any key — leaves
the layer (people, groups and edges) unchanged and returns the same result:
a recorded pair is caught by the duplicate check before any mutation, a
rejected pair is rejected again, and `_add_edge` never touches `groups`. -/
theorem add_edge_idempotent (L : Layer) (id id2 : Option String)
    (f m : Option Nat) (L1 : Layer) (b : Bool)
    (h : add_edge L id f m = some (L1, b)) :
    add_edge L1 id2 f m = some (L1, b) ∧
    add_edge L1 id2 m f = some (L1, b) := by
  by_cases hdup : ((f, m) ∈ L.edges.map (fun e => e.2) ∨
      (m, f) ∈ L.edges.map (fun e => e.2))
  · have h' : L1 = L ∧ b = true := by
      simp only [add_edge, if_pos hdup] at h
      exact ⟨(Prod.mk.injEq _ _ _ _ ▸ (Option.some.injEq _ _ ▸ h)).1.symm,
             (Prod.mk.injEq _ _ _ _ ▸ (Option.some.injEq _ _ ▸ h)).2.symm⟩
    obtain ⟨rfl, rfl⟩ := h'
    have hdup' : ((m, f) ∈ L1.edges.map (fun e => e.2) ∨
        (f, m) ∈ L1.edges.map (fun e => e.2)) := hdup.symm
    exact ⟨by simp [add_edge, if_pos hdup], by simp [add_edge, if_pos hdup']⟩
  · by_cases hrej : ((f ∈ L.edges.map (fun e => e.2.1) ∧
        f ∈ L.edges.map (fun e => e.2.2)) ∨
        (m ∈ L.edges.map (fun e => e.2.2) ∧ m ∈ L.edges.map (fun e => e.2.1)))
    · have h' : L1 = L ∧ b = false := by
        simp only [add_edge, if_neg hdup, if_pos hrej] at h
        exact ⟨(Prod.mk.injEq _ _ _ _ ▸ (Option.some.injEq _ _ ▸ h)).1.symm,
               (Prod.mk.injEq _ _ _ _ ▸ (Option.some.injEq _ _ ▸ h)).2.symm⟩
      obtain ⟨rfl, rfl⟩ := h'
      have hrej' : ((m ∈ L1.edges.map (fun e => e.2.1) ∧
          m ∈ L1.edges.map (fun e => e.2.2)) ∨
          (f ∈ L1.edges.map (fun e => e.2.2) ∧ f ∈ L1.edges.map (fun e => e.2.1))) := by
        tauto
      have hdup' : ¬((m, f) ∈ L1.edges.map (fun e => e.2) ∨
          (f, m) ∈ L1.edges.map (fun e => e.2)) := fun hh => hdup hh.symm
      exact ⟨by simp [add_edge, if_neg hdup, if_pos hrej],
             by simp [add_edge, if_neg hdup', if_pos hrej']⟩
    · simp only [add_edge, if_neg hdup, if_neg hrej] at h
      cases hstep : (if f ∈ L.edges.map (fun e => e.2.1) then
          match L.edges.findIdx? (fun e => e.2.1 = f) with
          | none => none
          | some i =>
            match L.edges.get? i with
            | none => none
            | some prevEdge =>
              let prevMother := prevEdge.2.2
              let edges' := L.edges.set i (prevEdge.1, (prevMother, f))
              if f ∈ L.people ∧ prevMother ∈ L.people then
                let fIdx := index_of L.people f
                let mIdx := index_of L.people prevMother
                some (edges', (L.people.set fIdx prevMother).set mIdx f)
              else none
        else some (L.edges, L.people)) with
      | none => rw [hstep] at h; cases h
      | some e1p1 =>
        rw [hstep] at h
        obtain ⟨e1, p1⟩ := e1p1
        dsimp only at h
        by_cases hmr : m ∈ L.edges.map (fun e => e.2.2)
        · simp only [if_pos hmr] at h
          have hx := Option.some.inj h
          have hb : b = true := (congrArg Prod.snd hx).symm
          have hL1 := (congrArg Prod.fst hx).symm
          subst hb
          subst hL1
          have hmem := edges_set_val_mem e1 id (m, f)
          constructor <;> simp [add_edge, hmem]
        · simp only [if_neg hmr] at h
          have hx := Option.some.inj h
          have hb : b = true := (congrArg Prod.snd hx).symm
          have hL1 := (congrArg Prod.fst hx).symm
          subst hb
          subst hL1
          have hmem := edges_set_val_mem e1 id (f, m)
          constructor <;> simp [add_edge, hmem]


/-- Witness for `add_edge_idempotent`: the layer obtained by recording the
pair `(1, 2)` on an empty layer absorbs a second call in either order. -/
theorem add_edge_idempotent_witness :
    add_edge { people := [], groups := [], edges := [(some "k", (some 1, some 2))] }
        (some "k2") (some 1) (some 2) =
      some ({ people := [], groups := [], edges := [(some "k", (some 1, some 2))] }, true) ∧
    add_edge { people := [], groups := [], edges := [(some "k", (some 1, some 2))] }
        (some "k2") (some 2) (some 1) =
      some ({ people := [], groups := [], edges := [(some "k", (some 1, some 2))] }, true) :=
  add_edge_idempotent emptyLayer (some "k") (some "k2") (some 1) (some 2)
    { people := [], groups := [], edges := [(some "k", (some 1, some 2))] } true rfl

/-! ## C1 — symmetry of kinship (amended part) -/

/-- Swap the roles of A and B in a kinship search state. -/
def mirror (s : KState) : KState := ⟨s.bAncs, s.aAncs, s.bDone, s.aDone⟩

/-- Classifier for one loop iteration's outcome: lookup error, early
return, or continuation. -/
def step_kind : Except FtError ((Nat × Nat × Int) ⊕ KState) → Nat
  | .error _ => 0
  | .ok (.inl _) => 1
  | .ok (.inr _) => 2

/-- Classifier for a kinship result: lookup error, non-termination
(fuel exhausted), no blood relation, or a found relation. -/
def kout_kind : Except FtError KOut → Nat
  | .error _ => 0
  | .ok .outOfFuel => 1
  | .ok .noRelation => 2
  | .ok (.found _) => 3

/-- One iteration of the kinship loop treats the mirrored state the same
way: it errs, returns, or continues together with the original, and a
continuation lands in the mirrored state.  (The returned values may differ —
the original checks A's new parents first, the mirror checks B's.) -/
theorem kinship_step_mirror (db : Db) (s : KState) :
    step_kind (kinship_step db (mirror s)) = step_kind (kinship_step db s) ∧
    ∀ s1, kinship_step db s = .ok (.inr s1) →
      kinship_step db (mirror s) = .ok (.inr (mirror s1)) := by
  obtain ⟨aA, bA, aD, bD⟩ := s
  simp only [mirror]
  unfold kinship_step
  cases hA : expand_side db aA aD with
  | error e =>
    cases hB : expand_side db bA bD with
    | error e' => refine ⟨by simp [step_kind], ?_⟩; intro s1 h; cases h
    | ok xB => refine ⟨by simp [step_kind], ?_⟩; intro s1 h; cases h
  | ok xA =>
    obtain ⟨aA', aD', aP⟩ := xA
    cases hB : expand_side db bA bD with
    | error e' => refine ⟨by simp [step_kind], ?_⟩; intro s1 h; cases h
    | ok xB =>
      obtain ⟨bA', bD', bP⟩ := xB
      simp only
      cases hHA : (if aD' then none else first_hit aP bA') with
      | some p =>
        cases hHB : (if bD' then none else first_hit bP aA') with
        | some q => refine ⟨by simp [step_kind], ?_⟩; intro s1 h; cases h
        | none => refine ⟨by simp [step_kind], ?_⟩; intro s1 h; cases h
      | none =>
        cases hHB : (if bD' then none else first_hit bP aA') with
        | some q => refine ⟨by simp [step_kind], ?_⟩; intro s1 h; cases h
        | none =>
          refine ⟨by simp [step_kind], ?_⟩
          intro s1 h
          simp only at h
          cases h
          simp [mirror]

/-- The kinship loop classifies the mirrored state exactly as the original
one, for every fuel. -/
theorem kinship_loop_mirror (db : Db) : ∀ (fuel : Nat) (s : KState),
    kout_kind (kinship_loop db fuel (mirror s)) =
      kout_kind (kinship_loop db fuel s) := by
  intro fuel
  induction fuel with
  | zero =>
    intro s
    by_cases hc : (s.aDone && s.bDone) = true
    · have hc' : (s.bDone && s.aDone) = true := by rw [Bool.and_comm]; exact hc
      simp [kinship_loop, mirror, hc, hc']
    · have hc' : ¬(s.bDone && s.aDone) = true := by rw [Bool.and_comm]; exact hc
      simp [kinship_loop, mirror, hc, hc']
  | succ n ih =>
    intro s
    by_cases hc : (s.aDone && s.bDone) = true
    · have hc' : (s.bDone && s.aDone) = true := by rw [Bool.and_comm]; exact hc
      simp [kinship_loop, mirror, hc, hc']
    · have hc' : ¬(s.bDone && s.aDone) = true := by rw [Bool.and_comm]; exact hc
      simp only [kinship_loop, mirror, hc, hc', if_neg, if_false]
      obtain ⟨hkind, hcont⟩ := kinship_step_mirror db s
      cases hS : kinship_step db s with
      | error e =>
        rw [hS] at hkind
        cases hS' : kinship_step db (mirror s) with
        | error e' =>
          simp only [mirror] at hS' ⊢
          rw [hS']
          simp [kout_kind]
        | ok v =>
          rw [hS'] at hkind
          cases v <;> simp [step_kind] at hkind
      | ok v =>
        cases v with
        | inl r =>
          rw [hS] at hkind
          cases hS' : kinship_step db (mirror s) with
          | error e' => rw [hS'] at hkind; simp [step_kind] at hkind
          | ok v' =>
            cases v' with
            | inl r' =>
              simp only [mirror] at hS' ⊢
              rw [hS']
              simp [kout_kind]
            | inr s1' => rw [hS'] at hkind; simp [step_kind] at hkind
        | inr s1 =>
          have hrev := hcont s1 hS
          simp only [mirror] at hrev ⊢
          rw [hrev]
          simpa using ih s1

/-- A kinship result is of the found class iff it is a found result. -/
theorem kout_kind_three_iff (x : Except FtError KOut) :
    kout_kind x = 3 ↔ ∃ r, x = .ok (.found r) := by
  cases x with
  | error e => simp [kout_kind]
  | ok v => cases v <;> simp [kout_kind]

/-- C1 (amended): `kinship(A, B)` and `kinship(B, A)` agree on whether a
blood relation exists — for the same iteration budget they err together,
exhaust together, report "no blood relation" together, and find a common
ancestor together; in particular one finds a relation iff the other does.
(The reported ancestor, degree and generation difference may differ when
several common ancestors surface at the same step, as the counterexample
shows.) -/
theorem kinship_relatedness_symmetric (db : Db) (a b : Nat) (fuel : Nat) :
    kout_kind (kinship db a b fuel) = kout_kind (kinship db b a fuel) ∧
    ((∃ r, kinship db a b fuel = .ok (.found r)) ↔
     (∃ r, kinship db b a fuel = .ok (.found r))) := by
  have hmain : kout_kind (kinship db a b fuel) = kout_kind (kinship db b a fuel) := by
    cases hA : get_person db a with
    | error e =>
      cases hB : get_person db b with
      | error e' =>
        have h1 : kinship db a b fuel = .error e := by unfold kinship; rw [hA]; rfl
        have h2 : kinship db b a fuel = .error e' := by unfold kinship; rw [hB]; rfl
        rw [h1, h2]
        rfl
      | ok rb =>
        have h1 : kinship db a b fuel = .error e := by unfold kinship; rw [hA]; rfl
        have h2 : kinship db b a fuel = .error e := by
          unfold kinship; rw [hB, hA]; rfl
        rw [h1, h2]
    | ok ra =>
      cases hB : get_person db b with
      | error e' =>
        have h1 : kinship db a b fuel = .error e' := by
          unfold kinship; rw [hA, hB]; rfl
        have h2 : kinship db b a fuel = .error e' := by unfold kinship; rw [hB]; rfl
        rw [h1, h2]
      | ok rb =>
        have h1 : kinship db a b fuel =
            if ra.pid = rb.pid then .ok (.found (ra.pid, 0, 0))
            else kinship_loop db fuel ⟨[[ra.pid]], [[rb.pid]], false, false⟩ := by
          unfold kinship; rw [hA, hB]; rfl
        have h2 : kinship db b a fuel =
            if rb.pid = ra.pid then .ok (.found (rb.pid, 0, 0))
            else kinship_loop db fuel ⟨[[rb.pid]], [[ra.pid]], false, false⟩ := by
          unfold kinship; rw [hB, hA]; rfl
        rw [h1, h2]
        by_cases hid : ra.pid = rb.pid
        · have hid' : rb.pid = ra.pid := hid.symm
          rw [if_pos hid, if_pos hid']
          rfl
        · have hid' : ¬(rb.pid = ra.pid) := fun hh => hid hh.symm
          rw [if_neg hid, if_neg hid']
          exact (kinship_loop_mirror db fuel ⟨[[ra.pid]], [[rb.pid]], false, false⟩).symm
  refine ⟨hmain, ?_⟩
  constructor
  · intro hr
    exact (kout_kind_three_iff _).1 (hmain ▸ (kout_kind_three_iff _).2 hr)
  · intro hr
    exact (kout_kind_three_iff _).1 (hmain.symm ▸ (kout_kind_three_iff _).2 hr)

/-! ## C8 — spurious branches are truncated, never propagated -/

/-- Decidable equality of `Except` results, for concrete evaluation. -/
instance {ε α : Type} [DecidableEq ε] [DecidableEq α] : DecidableEq (Except ε α)
  | .error e, .error e' =>
    if h : e = e' then .isTrue (by rw [h])
    else .isFalse (fun hh => h (Except.error.inj hh))
  | .error _, .ok _ => .isFalse (fun hh => Except.noConfusion hh)
  | .ok _, .error _ => .isFalse (fun hh => Except.noConfusion hh)
  | .ok a, .ok a' =>
    if h : a = a' then .isTrue (by rw [h])
    else .isFalse (fun hh => h (Except.ok.inj hh))

/-- A bound computation yields `SpuriousConnection` only if one of its two
stages does. -/
theorem bind_no_spur {α β : Type} (x : Except FtError α)
    (f : α → Except FtError β)
    (hx : x ≠ .error .spurious)
    (hf : ∀ a, x = .ok a → f a ≠ .error .spurious) :
    (x >>= f) ≠ .error .spurious := by
  cases x with
  | error e =>
    intro h
    have hred : (Except.error e >>= f : Except FtError β) = Except.error e := rfl
    rw [hred] at h
    have he : e = FtError.spurious := Except.error.inj h
    exact hx (by rw [he])
  | ok a =>
    intro h
    have hred : (Except.ok a >>= f : Except FtError β) = f a := rfl
    rw [hred] at h
    exact hf a rfl h

/-- `Person.father` never lets `SpuriousConnection` escape: the accessor
catches it and returns `None`. -/
theorem father_no_spurious (db : Db) (r : PRec) :
    father db r ≠ .error .spurious := by
  unfold father
  cases r.fatherId with
  | none => exact fun h => Except.noConfusion h
  | some fid =>
    dsimp only
    cases h : get_person db fid with
    | ok rf => exact fun hh => Except.noConfusion hh
    | error e =>
      cases e
      case spurious => exact fun hh => Except.noConfusion hh
      all_goals exact fun hh => FtError.noConfusion (Except.error.inj hh)

/-- `Person.mother` never lets `SpuriousConnection` escape. -/
theorem mother_no_spurious (db : Db) (r : PRec) :
    mother db r ≠ .error .spurious := by
  unfold mother
  cases r.motherId with
  | none => exact fun h => Except.noConfusion h
  | some mid =>
    dsimp only
    cases h : get_person db mid with
    | ok rm => exact fun hh => Except.noConfusion hh
    | error e =>
      cases e
      case spurious => exact fun hh => Except.noConfusion hh
      all_goals exact fun hh => FtError.noConfusion (Except.error.inj hh)

/-- A father id actually returned by the accessor resolves successfully. -/
theorem father_good {db : Db} {r : PRec} {fid : Nat}
    (h : father db r = .ok (some fid)) : ∃ rf, get_person db fid = .ok rf := by
  unfold father at h
  cases hf : r.fatherId with
  | none => rw [hf] at h; cases h
  | some fid' =>
    rw [hf] at h
    dsimp only at h
    cases hg : get_person db fid' with
    | ok rf =>
      rw [hg] at h
      have : some rf.pid = some fid := Except.ok.inj h
      have hpid : rf.pid = fid := Option.some.inj this
      exact ⟨rf, hpid ▸ (get_person_pid hg ▸ hg)⟩
    | error e =>
      rw [hg] at h
      cases e
      case spurious => exact Option.noConfusion (Except.ok.inj h)
      all_goals cases h

/-- A mother id actually returned by the accessor resolves successfully. -/
theorem mother_good {db : Db} {r : PRec} {mid : Nat}
    (h : mother db r = .ok (some mid)) : ∃ rm, get_person db mid = .ok rm := by
  unfold mother at h
  cases hf : r.motherId with
  | none => rw [hf] at h; cases h
  | some mid' =>
    rw [hf] at h
    dsimp only at h
    cases hg : get_person db mid' with
    | ok rm =>
      rw [hg] at h
      have : some rm.pid = some mid := Except.ok.inj h
      have hpid : rm.pid = mid := Option.some.inj this
      exact ⟨rm, hpid ▸ (get_person_pid hg ▸ hg)⟩
    | error e =>
      rw [hg] at h
      cases e
      case spurious => exact Option.noConfusion (Except.ok.inj h)
      all_goals cases h

/-- All ids in a list resolve successfully in the session. -/
def GoodIds (db : Db) (l : List Nat) : Prop :=
  ∀ p ∈ l, ∃ r, get_person db p = .ok r

/-- Inversion of a successful bound computation. -/
theorem bind_ok_elim {α β : Type} {x : Except FtError α}
    {f : α → Except FtError β} {b : β}
    (h : (x >>= f) = .ok b) : ∃ a, x = .ok a ∧ f a = .ok b := by
  cases x with
  | error e => exact absurd h (fun hh => Except.noConfusion hh)
  | ok a => exact ⟨a, rfl, h⟩

/-- `Person.parents_id` never raises `SpuriousConnection` (both parent
accessors swallow it). -/
theorem parents_id_no_spurious (db : Db) (r : PRec) :
    parents_id db r ≠ .error .spurious := by
  unfold parents_id
  apply bind_no_spur _ _ (father_no_spurious db r)
  intro f _
  apply bind_no_spur _ _ (mother_no_spurious db r)
  intro m _
  exact fun hh => Except.noConfusion hh

/-- The parent scan of one resolvable ancestor-layer member never raises
`SpuriousConnection`. -/
theorem person_parents_no_spur (db : Db) (p : Nat)
    (hp : ∃ r, get_person db p = .ok r) :
    person_parents db p ≠ .error .spurious := by
  unfold person_parents
  obtain ⟨r, hr⟩ := hp
  apply bind_no_spur
  · rw [hr]; exact fun hh => Except.noConfusion hh
  · intro a _
    apply bind_no_spur _ _ (father_no_spurious db a)
    intro f _
    apply bind_no_spur _ _ (mother_no_spurious db a)
    intro m _
    exact fun hh => Except.noConfusion hh

/-- Parents returned by the scan resolve successfully themselves. -/
theorem person_parents_good {db : Db} {p : Nat} {qs : List Nat}
    (h : person_parents db p = .ok qs) : GoodIds db qs := by
  unfold person_parents at h
  obtain ⟨r, _, h1⟩ := bind_ok_elim h
  obtain ⟨f, hf, h2⟩ := bind_ok_elim h1
  obtain ⟨m, hm, h3⟩ := bind_ok_elim h2
  have hqs : qs = parentsOf f m := (Except.ok.inj h3).symm
  subst hqs
  intro q hq
  unfold parentsOf at hq
  rcases List.mem_append.1 hq with hq | hq
  · have hfq : f = some q := by
      cases f with
      | none => cases hq
      | some x => simp at hq; rw [hq]
    exact father_good (hfq ▸ hf)
  · have hmq : m = some q := by
      cases m with
      | none => cases hq
      | some x => simp at hq; rw [hq]
    exact mother_good (hmq ▸ hm)

/-- `all_parents` over a layer of resolvable members never raises
`SpuriousConnection`. -/
theorem all_parents_no_spur (db : Db) :
    ∀ l : List Nat, GoodIds db l → all_parents db l ≠ .error .spurious := by
  intro l
  induction l with
  | nil => intro _ hh; exact Except.noConfusion hh
  | cons p rest ih =>
    intro hl
    unfold all_parents
    apply bind_no_spur _ _ (person_parents_no_spur db p (hl p (by simp)))
    intro ps _
    apply bind_no_spur
    · exact ih (fun q hq => hl q (by simp [hq]))
    · intro rs _
      exact fun hh => Except.noConfusion hh

/-- All members of an `all_parents` result resolve successfully. -/
theorem all_parents_good (db : Db) :
    ∀ (l qs : List Nat), all_parents db l = .ok qs → GoodIds db qs := by
  intro l
  induction l with
  | nil =>
    intro qs h
    have : qs = [] := (Except.ok.inj h).symm
    subst this
    intro q hq
    cases hq
  | cons p rest ih =>
    intro qs h
    unfold all_parents at h
    obtain ⟨ps, hps, h1⟩ := bind_ok_elim h
    obtain ⟨rs, hrs, h2⟩ := bind_ok_elim h1
    have hqs : qs = ps ++ rs := (Except.ok.inj h2).symm
    subst hqs
    intro q hq
    rcases List.mem_append.1 hq with hq | hq
    · exact person_parents_good hps q hq
    · exact ih rs hrs q hq

/-- Expanding one side of the kinship search from a resolvable newest layer
neither raises `SpuriousConnection` nor introduces unresolvable members. -/
theorem expand_side_no_spur (db : Db) (ancs : List (List Nat)) (done : Bool)
    (h : GoodIds db (ancs.getLastD [])) :
    expand_side db ancs done ≠ .error .spurious ∧
    ∀ ancs' done' ps, expand_side db ancs done = .ok (ancs', done', ps) →
      GoodIds db (ancs'.getLastD []) ∧ GoodIds db ps := by
  unfold expand_side
  cases done with
  | true =>
    refine ⟨fun hh => Except.noConfusion hh, ?_⟩
    intro ancs' done' ps hh
    obtain ⟨h1, h2⟩ := Prod.mk.inj (Except.ok.inj hh)
    obtain ⟨h3, h4⟩ := Prod.mk.inj h2
    subst h1; subst h4
    exact ⟨h, fun q hq => by cases hq⟩
  | false =>
    cases hap : all_parents db (ancs.getLastD []) with
    | error e =>
      refine ⟨?_, ?_⟩
      · intro hh
        have he : e = FtError.spurious := Except.error.inj hh
        exact all_parents_no_spur db _ h (he ▸ hap)
      · intro ancs' done' ps hh; cases hh
    | ok ps0 =>
      cases ps0 with
      | nil =>
        refine ⟨fun hh => Except.noConfusion hh, ?_⟩
        intro ancs' done' ps hh
        obtain ⟨h1, h2⟩ := Prod.mk.inj (Except.ok.inj hh)
        obtain ⟨h3, h4⟩ := Prod.mk.inj h2
        subst h1; subst h4
        exact ⟨h, fun q hq => by cases hq⟩
      | cons p0 rest0 =>
        refine ⟨fun hh => Except.noConfusion hh, ?_⟩
        intro ancs' done' ps hh
        obtain ⟨h1, h2⟩ := Prod.mk.inj (Except.ok.inj hh)
        obtain ⟨h3, h4⟩ := Prod.mk.inj h2
        subst h1; subst h4
        have hgood := all_parents_good db _ _ hap
        refine ⟨?_, hgood⟩
        simpa [List.getLastD_concat] using hgood

/-- Search-state invariant: the newest layer of each side resolves. -/
def InvK (db : Db) (s : KState) : Prop :=
  GoodIds db (s.aAncs.getLastD []) ∧ GoodIds db (s.bAncs.getLastD [])

/-- One kinship iteration preserves the invariant and never raises
`SpuriousConnection`. -/
theorem kinship_step_no_spur (db : Db) (s : KState) (h : InvK db s) :
    kinship_step db s ≠ .error .spurious ∧
    ∀ s1, kinship_step db s = .ok (.inr s1) → InvK db s1 := by
  unfold kinship_step
  cases hA : expand_side db s.aAncs s.aDone with
  | error e =>
    refine ⟨?_, ?_⟩
    · intro hh
      have he : e = FtError.spurious := Except.error.inj hh
      exact (expand_side_no_spur db s.aAncs s.aDone h.1).1 (he ▸ hA)
    · intro s1 hh; cases hh
  | ok xA =>
    obtain ⟨aA', aD', aP⟩ := xA
    have hgA := (expand_side_no_spur db s.aAncs s.aDone h.1).2 aA' aD' aP hA
    cases hB : expand_side db s.bAncs s.bDone with
    | error e =>
      refine ⟨?_, ?_⟩
      · intro hh
        have he : e = FtError.spurious := Except.error.inj hh
        exact (expand_side_no_spur db s.bAncs s.bDone h.2).1 (he ▸ hB)
      · intro s1 hh; cases hh
    | ok xB =>
      obtain ⟨bA', bD', bP⟩ := xB
      have hgB := (expand_side_no_spur db s.bAncs s.bDone h.2).2 bA' bD' bP hB
      dsimp only
      cases hHA : (if aD' then none else first_hit aP bA') with
      | some p =>
        refine ⟨fun hh => Except.noConfusion hh, ?_⟩
        intro s1 hh
        obtain ⟨q, qd⟩ := p
        cases hh
      | none =>
        cases hHB : (if bD' then none else first_hit bP aA') with
        | some q =>
          refine ⟨fun hh => Except.noConfusion hh, ?_⟩
          intro s1 hh
          obtain ⟨q', qd⟩ := q
          cases hh
        | none =>
          refine ⟨fun hh => Except.noConfusion hh, ?_⟩
          intro s1 hh
          cases hh
          exact ⟨hgA.1, hgB.1⟩

/-- The kinship loop never raises `SpuriousConnection` from an invariant
state. -/
theorem kinship_loop_no_spur (db : Db) :
    ∀ (fuel : Nat) (s : KState), InvK db s →
      kinship_loop db fuel s ≠ .error .spurious := by
  intro fuel
  induction fuel with
  | zero =>
    intro s _
    simp only [kinship_loop]
    split <;> exact fun hh => Except.noConfusion hh
  | succ n ih =>
    intro s hs
    simp only [kinship_loop]
    split
    · exact fun hh => Except.noConfusion hh
    · cases hS : kinship_step db s with
      | error e =>
        intro hh
        have he : e = FtError.spurious := Except.error.inj hh
        exact (kinship_step_no_spur db s hs).1 (he ▸ hS)
      | ok v =>
        cases v with
        | inl r => exact fun hh => Except.noConfusion hh
        | inr s1 => exact ih s1 ((kinship_step_no_spur db s hs).2 s1 hS)

/-- `Family.kinship` raises `SpuriousConnection` only for its two direct
arguments, never from inside the upward search. -/
theorem kinship_no_spur (db : Db) (a b fuel : Nat)
    (ha : get_person db a ≠ .error .spurious)
    (hb : get_person db b ≠ .error .spurious) :
    kinship db a b fuel ≠ .error .spurious := by
  unfold kinship
  apply bind_no_spur _ _ ha
  intro ra hra
  apply bind_no_spur _ _ hb
  intro rb hrb
  by_cases hid : ra.pid = rb.pid
  · rw [if_pos hid]; exact fun hh => Except.noConfusion hh
  · rw [if_neg hid]
    apply kinship_loop_no_spur
    constructor
    · intro q hq
      simp only [List.getLastD] at hq
      have : q = ra.pid := by simpa using hq
      subst this
      exact ⟨ra, (get_person_pid hra) ▸ hra⟩
    · intro q hq
      have : q = rb.pid := by simpa using hq
      subst this
      exact ⟨rb, (get_person_pid hrb) ▸ hrb⟩

/-- The ancestor-pass append step never raises `SpuriousConnection` for a
resolvable parent. -/
theorem parent_entry_no_spur (db : Db) (L : Layer) (p : Option Nat)
    (hp : ∀ pp, p = some pp → ∃ r, get_person db pp = .ok r) :
    parent_entry db L p ≠ .error .spurious := by
  cases p with
  | none => exact fun hh => Except.noConfusion hh
  | some pp =>
    unfold parent_entry
    obtain ⟨r, hr⟩ := hp pp rfl
    apply bind_no_spur
    · rw [hr]; exact fun hh => Except.noConfusion hh
    · intro rp _
      apply bind_no_spur _ _ (parents_id_no_spurious db rp)
      intro key _
      split <;> exact fun hh => Except.noConfusion hh

/-- The recursive ancestor walk never raises `SpuriousConnection` when its
subject resolves: every deeper person comes out of the swallowing
father/mother accessors. -/
theorem ancestor_aux_no_spur (db : Db) :
    ∀ (fuel pid level : Nat) (layers : List Layer),
      get_person db pid ≠ .error .spurious →
      get_ancestor_layers_aux db fuel pid level layers ≠ .error .spurious := by
  intro fuel
  induction fuel with
  | zero =>
    intro pid level layers _ hh
    exact FtError.noConfusion (Except.error.inj hh)
  | succ n ih =>
    intro pid level layers0 hpid
    unfold get_ancestor_layers_aux
    apply bind_no_spur _ _ hpid
    intro r _
    apply bind_no_spur _ _ (father_no_spurious db r)
    intro f hf
    apply bind_no_spur _ _ (mother_no_spurious db r)
    intro m hm
    have hfg : ∀ pp, f = some pp → ∃ rr, get_person db pp = .ok rr :=
      fun pp hpp => father_good (hpp ▸ hf)
    have hmg : ∀ pp, m = some pp → ∃ rr, get_person db pp = .ok rr :=
      fun pp hpp => mother_good (hpp ▸ hm)
    cases f with
    | none =>
      cases m with
      | none =>
        apply bind_no_spur
        · exact fun hh => Except.noConfusion hh
        · intro layers1 _
          dsimp only
          apply bind_no_spur
          · exact fun hh => Except.noConfusion hh
          · intro layers2 _
            dsimp only
            apply bind_no_spur _ _ (parent_entry_no_spur db _ _ (hfg))
            intro eF _
            apply bind_no_spur _ _ (parent_entry_no_spur db _ _ (hmg))
            intro eM _
            exact fun hh => Except.noConfusion hh
      | some mid =>
        apply bind_no_spur
        · exact fun hh => Except.noConfusion hh
        · intro layers1 _
          dsimp only
          apply bind_no_spur
          · obtain ⟨rm, hrm⟩ := hmg mid rfl
            exact ih mid (level + 1) _ (by rw [hrm]; exact fun hh => Except.noConfusion hh)
          · intro layers2 _
            dsimp only
            apply bind_no_spur _ _ (parent_entry_no_spur db _ _ (hfg))
            intro eF _
            apply bind_no_spur _ _ (parent_entry_no_spur db _ _ (hmg))
            intro eM _
            exact fun hh => Except.noConfusion hh
    | some fid =>
      cases m with
      | none =>
        apply bind_no_spur
        · obtain ⟨rf, hrf⟩ := hfg fid rfl
          exact ih fid (level + 1) _ (by rw [hrf]; exact fun hh => Except.noConfusion hh)
        · intro layers1 _
          dsimp only
          apply bind_no_spur
          · exact fun hh => Except.noConfusion hh
          · intro layers2 _
            dsimp only
            apply bind_no_spur _ _ (parent_entry_no_spur db _ _ (hfg))
            intro eF _
            apply bind_no_spur _ _ (parent_entry_no_spur db _ _ (hmg))
            intro eM _
            exact fun hh => Except.noConfusion hh
      | some mid =>
        apply bind_no_spur
        · obtain ⟨rf, hrf⟩ := hfg fid rfl
          exact ih fid (level + 1) _ (by rw [hrf]; exact fun hh => Except.noConfusion hh)
        · intro layers1 _
          dsimp only
          apply bind_no_spur
          · obtain ⟨rm, hrm⟩ := hmg mid rfl
            exact ih mid (level + 1) _ (by rw [hrm]; exact fun hh => Except.noConfusion hh)
          · intro layers2 _
            dsimp only
            apply bind_no_spur _ _ (parent_entry_no_spur db _ _ (hfg))
            intro eF _
            apply bind_no_spur _ _ (parent_entry_no_spur db _ _ (hmg))
            intro eM _
            dsimp only
            cases hae : add_edge (((layers2.set level
                (apply_parent_entry (apply_parent_entry
                  (layers2.getD level emptyLayer) eF) eM))).getD level emptyLayer)
                (get_parents_id db (some fid) (some mid)) (some fid) (some mid) with
            | none => exact fun hh => FtError.noConfusion (Except.error.inj hh)
            | some Lb =>
              obtain ⟨L', b'⟩ := Lb
              exact fun hh => Except.noConfusion hh

/-- `Person.get_ancestor_layers` never raises `SpuriousConnection` for a
resolvable subject. -/
theorem get_ancestor_layers_no_spur (db : Db) (fuel pid : Nat)
    (hpid : get_person db pid ≠ .error .spurious) :
    get_ancestor_layers db fuel pid ≠ .error .spurious := by
  unfold get_ancestor_layers
  apply bind_no_spur _ _ (ancestor_aux_no_spur db fuel pid 0 [] hpid)
  intro layers _
  exact fun hh => Except.noConfusion hh

/-- C8: when resolving a father or mother hits `SpuriousConnection` (the
ancestor is flagged spurious while the session excludes distant history),
the accessor returns `None` and the branch is treated as absent; the
exception never propagates out of the kinship search or the ancestor layer
building (their only spurious failures are for the directly supplied
subjects). -/
theorem spurious_truncation :
    (∀ (db : Db) (r : PRec) (fid : Nat), r.fatherId = some fid →
        get_person db fid = .error .spurious → father db r = .ok none) ∧
    (∀ (db : Db) (r : PRec) (mid : Nat), r.motherId = some mid →
        get_person db mid = .error .spurious → mother db r = .ok none) ∧
    (∀ (db : Db) (a b fuel : Nat), get_person db a ≠ .error .spurious →
        get_person db b ≠ .error .spurious →
        kinship db a b fuel ≠ .error .spurious) ∧
    (∀ (db : Db) (fuel pid : Nat), get_person db pid ≠ .error .spurious →
        get_ancestor_layers db fuel pid ≠ .error .spurious) := by
  refine ⟨?_, ?_, kinship_no_spur, get_ancestor_layers_no_spur⟩
  · intro db r fid h1 h2
    unfold father
    rw [h1]
    dsimp only
    rw [h2]
  · intro db r mid h1 h2
    unfold mother
    rw [h1]
    dsimp only
    rw [h2]

/-- Witness for `spurious_truncation` on `dbSpur`: the spurious grandfather
`3` truncates silently. -/
theorem spurious_truncation_witness :
    father dbSpur { pid := 2, fatherId := some 3 } = .ok none ∧
    kinship dbSpur 1 9 10 ≠ .error .spurious ∧
    get_ancestor_layers dbSpur 10 1 ≠ .error .spurious :=
  ⟨spurious_truncation.1 dbSpur { pid := 2, fatherId := some 3 } 3 rfl rfl,
   spurious_truncation.2.2.1 dbSpur 1 9 10 (by decide) (by decide),
   spurious_truncation.2.2.2 dbSpur 10 1 (by decide)⟩
